import Mathlib

/-!
Verification of the CLSP publications synchronizer (main.py) against its
natural-language specification.  The Python source is shallowly embedded:
pure computations become Lean functions, the network is an explicit oracle,
stateful code is explicit state passing, and raised exceptions become
Except values.  Event lists record the observable side effects (HTTP GETs,
sleeps, cache checkpoints) in program order.
-/

namespace ClspPubs

/-! ## Data model

JSON values coming back from the remote API, as the Python code consumes
them.  An Option models a JSON field that may be null; for the per-item
year of an author paper listing the code additionally distinguishes a
missing key, hence the nested Option there. -/

/-- The nested journal object of a paper record; its name key may be absent. -/
structure Journal where
  name : Option String
deriving DecidableEq, Repr

/-- The externalIds mapping; only the two keys the code reads are modelled. -/
structure ExternalIds where
  acl : Option String
  corpusId : Option Nat
deriving DecidableEq, Repr

/-- An ISO calendar date, already parsed (the code parses %Y-%m-%d with strptime). -/
structure PubDate where
  year : Int
  month : Nat
  day : Nat
deriving DecidableEq, Repr

/-- A paper record as stored in the cache file / returned by the paper
details endpoint.  The bibtex field is the lazily rendered citation. -/
structure PaperRecord where
  paperId : String
  title : String
  venue : Option String
  year : Option Int
  publicationDate : Option PubDate
  authors : List String
  url : String
  externalIds : ExternalIds
  journal : Option Journal
  bibtex : Option String := none
deriving DecidableEq, Repr

/-- An item of the author paper listing: a paper id plus an optional year.
The outer Option models the year key being absent from the JSON object,
the inner one models an explicit null. -/
structure PaperItem where
  paperId : String
  year : Option (Option Int)
deriving DecidableEq, Repr

/-- One roster entry: remote author id and the optional tenure bounds. -/
structure AuthorInfo where
  s2id : String
  start_year : Option Int
  end_year : Option Int
deriving DecidableEq, Repr

/-! ## URL templates (module constants of main.py) -/

def PAPER_DETAILS_URL (id : String) : String :=
  "https://api.semanticscholar.org/graph/v1/paper/" ++ id ++
    "?fields=title,venue,year,publicationDate,publicationTypes,authors,journal,url,externalIds"

def AUTHOR_DETAILS_URL (id : String) : String :=
  "https://api.semanticscholar.org/graph/v1/author/" ++ id ++ "?fields=papers,papers.year"

def ANTHOLOGY_TEMPLATE (id : String) : String :=
  "https://aclanthology.org/" ++ id ++ ".bib"

/-! ## The resilient fetcher: return_request -/

/-- An HTTP response as the retry loop inspects it. -/
structure HttpResp where
  status : Nat
  body : String
deriving DecidableEq, Repr

/-- Observable effects of return_request, in program order.  The two
half-second sleeps are the fixed retry delay (non-429 failure) and the
post-success pacing delay. -/
inductive NetEv
  | get (url : String)
  | backoffSleep (secs : Nat)
  | shortSleep
  | pacingSleep
deriving DecidableEq, Repr

/-- The message of the exception raised after the attempt budget is
exhausted.  The source lacks the f-prefix on the string, so the braces are
literal text, not an interpolation. -/
def RETRY_MSG : String :=
  "Could not get a response from the server after \x7battempt_no\x7d attempts"

/-- The while loop of return_request.  attempt is the Python attempt_no;
the loop body runs while attempt_no < 10, so fuel = 10 - attempt.  On 429
the sleep is 2 ** attempt_no seconds; on other non-200 statuses the sleep
is the fixed half second. -/
def rrLoop (url : String) (resp : Nat → HttpResp) :
    Nat → Nat → List NetEv → Except String String × List NetEv
  | 0, _, evs => (.error RETRY_MSG, evs)
  | fuel + 1, attempt, evs =>
    let r := resp attempt
    if r.status = 200 then
      (.ok r.body, evs ++ [.get url, .pacingSleep])
    else if r.status = 429 then
      rrLoop url resp fuel (attempt + 1) (evs ++ [.get url, .backoffSleep (2 ^ attempt)])
    else
      rrLoop url resp fuel (attempt + 1) (evs ++ [.get url, .shortSleep])

/-- return_request: attempts start at 1 and the loop admits attempts 1..9.
The resp oracle gives the response of each attempt. -/
def return_request (url : String) (resp : Nat → HttpResp) :
    Except String String × List NetEv :=
  rrLoop url resp 9 1 []

/-- The backoff sleeps (the 429 branch) of an event trace. -/
def backoffs (evs : List NetEv) : List Nat :=
  evs.filterMap fun e =>
    match e with
    | .backoffSleep s => some s
    | _ => none

/-! ## The citation renderer: get_year and get_bibtex -/

/-- Errors of the run.  upstream is the exception raised by
return_request after exhausting its budget; keyError is a Python KeyError
on a required field (the renderer requires the CorpusId key). -/
inductive Err
  | upstream (msg : String)
  | keyError (key : String)
deriving DecidableEq, Repr

/-- get_year: the explicit year field if non-null, else the year of the
publication date if non-null, else unknown. -/
def get_year (r : PaperRecord) : Option Int :=
  match r.year with
  | some y => some y
  | none =>
    match r.publicationDate with
    | some d => some d.year
    | none => none

/-- The venue string after the journal-name fallback: the fallback fires
only when the venue field is the empty string, the journal object is
non-null, and it has a name key. -/
def venueResolved (r : PaperRecord) : Option String :=
  match r.venue, r.journal with
  | some v, some j =>
    if v = "" then
      match j.name with
      | some n => some n
      | none => some v
    else some v
  | v, _ => v

/-- How Python str() renders the value interpolated by the template: an
int prints as itself, None prints as the word None. -/
def fmtPyOptInt : Option Int → String
  | some n => toString n
  | none => "None"

def fmtPyOptStr : Option String → String
  | some s => s
  | none => "None"

/-- The month fragment of the template: a tab-indented month line when the
publication date is non-null, nothing otherwise. -/
def monthPart (r : PaperRecord) : String :=
  match r.publicationDate with
  | some d => "\n\tmonth = \x7b" ++ toString d.month ++ "\x7d,"
  | none => ""

/-- The author display list: each name braced, joined with and. -/
def author_list_str (authors : List String) : String :=
  "\x7b" ++ String.intercalate " and " (authors.map fun n => "\x7b" ++ n ++ "\x7d") ++ "\x7d"

/-- PUB_TEMPLATE after .format and the % substitution of the corpus id.
The whitespace reproduces the Python triple-quoted string byte for byte
(including the trailing space after the booktitle line). -/
def fallbackEntry (r : PaperRecord) (ident : Nat) (urlStr : String) : String :=
  "\n    @inproceedings\x7b" ++ toString ident ++
    ",\n        title = \x7b" ++ r.title ++
    "\x7d,\n        author = " ++ author_list_str r.authors ++
    ",\n        year = " ++ fmtPyOptInt (get_year r) ++ "," ++ monthPart r ++
    "\n        booktitle = \x7b" ++ fmtPyOptStr (venueResolved r) ++
    "\x7d, \n        url = \x7b" ++ urlStr ++ "\x7d,\n    \x7d\n    "

/-- Observable effects of the synchronization layer, in program order. -/
inductive Event
  | authorFetch (s2id : String)
  | paperFetch (paperId : String)
  | anthologyFetch (url : String)
  | checkpoint (papers : List PaperRecord)
deriving DecidableEq, Repr

/-- get_bibtex.  The corpus id is read before the anthology branch, so a
missing CorpusId key raises even when an anthology id is present.  When an
anthology id is present the local url variable is reassigned to the
anthology URL before the fetch, so the fallback template embeds the
anthology URL, not the record URL.  The anthology oracle returns the
response text on status 200 and none otherwise. -/
def get_bibtex (anthology : String → Option String) (r : PaperRecord) :
    Except Err (String × List Event) :=
  match r.externalIds.corpusId with
  | none => .error (.keyError "CorpusId")
  | some ident =>
    match r.externalIds.acl with
    | some aid =>
      let aurl := ANTHOLOGY_TEMPLATE aid
      match anthology aurl with
      | some text => .ok (text, [.anthologyFetch aurl])
      | none => .ok (fallbackEntry r ident aurl, [.anthologyFetch aurl])
    | none => .ok (fallbackEntry r ident r.url, [])

/-! ## The synchronization engine: update_cache -/

/-- The tenure window filter of update_cache, translated condition for
condition.  Python truthiness makes a year of 0 (and a tenure bound of 0)
behave like an absent value. -/
def skips (info : AuthorInfo) (item : PaperItem) : Bool :=
  (match info.start_year, item.year with
   | some s, some (some y) => s != 0 && y != 0 && decide (s > y)
   | _, _ => false)
  ||
  (match info.end_year, item.year with
   | some e, some (some y) => e != 0 && y != 0 && decide (e < y)
   | _, _ => false)

/-- The remote, at the abstraction level update_cache consumes it: the two
return_request call sites either deliver decoded JSON or raise, and the
plain anthology GET either returns a 200 body or not. -/
structure Remote where
  authorPapers : String → Except String (List PaperItem)
  paperDetails : String → Except String PaperRecord
  anthology : String → Option String

/-- The mutable state of a run: the ordered cache (an association list,
insertion ordered like the Python OrderedDict), the seen set, and the
event trace. -/
structure SyncState where
  cache : List (String × PaperRecord)
  seen : List String
  events : List Event
deriving DecidableEq, Repr

def keys (c : List (String × PaperRecord)) : List String :=
  c.map fun p => p.1

/-- First-match association lookup (dictionary access). -/
def lookupId : List (String × PaperRecord) → String → Option PaperRecord
  | [], _ => none
  | (k, v) :: rest, id => if k = id then some v else lookupId rest id

/-- Dictionary assignment: replace the value at an existing key in place,
else append at the end (OrderedDict insertion order). -/
def upsert : List (String × PaperRecord) → String → PaperRecord →
    List (String × PaperRecord)
  | [], k, v => [(k, v)]
  | (k1, v1) :: rest, k, v =>
    if k1 = k then (k, v) :: rest else (k1, v1) :: upsert rest k v

/-- Loading the cache file: insert every record keyed by its own paperId
field, in file order. -/
def loadCache (file : List PaperRecord) : List (String × PaperRecord) :=
  file.foldl (fun acc r => upsert acc r.paperId r) []

/-- Mutating the bibtex field of the record stored at a key, in place. -/
def setBibtexAt : List (String × PaperRecord) → String → String →
    List (String × PaperRecord)
  | [], _, _ => []
  | (k, v) :: rest, id, b =>
    if k = id then (k, { v with bibtex := some b }) :: rest
    else (k, v) :: setBibtexAt rest id b

/-- Adding a paper id to the seen set. -/
def markSeen (id : String) (seen : List String) : List String :=
  if id ∈ seen then seen else id :: seen

/-- The lazy bibtex backfill: nothing happens when the field is populated;
otherwise the citation is rendered (possibly fetching from the anthology)
and stored on the record. -/
def ensureBibtex (anthology : String → Option String) (st : SyncState)
    (id : String) (r : PaperRecord) : Except Err SyncState :=
  match r.bibtex with
  | some _ => .ok st
  | none =>
    match get_bibtex anthology r with
    | .error e => .error e
    | .ok (b, evs) =>
      .ok { st with cache := setBibtexAt st.cache id b, events := st.events ++ evs }

/-- The per-item body of the author loop: tenure filter, mark seen, reuse
or fetch, backfill the citation. -/
def processItem (remote : Remote) (info : AuthorInfo) (st : SyncState)
    (item : PaperItem) : Except Err SyncState :=
  if skips info item then .ok st
  else
    match lookupId st.cache item.paperId with
    | some r =>
      ensureBibtex remote.anthology
        { st with seen := markSeen item.paperId st.seen } item.paperId r
    | none =>
      match remote.paperDetails item.paperId with
      | .error msg => .error (.upstream msg)
      | .ok r =>
        ensureBibtex remote.anthology
          { cache := st.cache ++ [(item.paperId, r)],
            seen := markSeen item.paperId st.seen,
            events := st.events ++ [.paperFetch item.paperId] } item.paperId r

def processItems (remote : Remote) (info : AuthorInfo) :
    SyncState → List PaperItem → Except Err SyncState
  | st, [] => .ok st
  | st, it :: rest =>
    match processItem remote info st it with
    | .error e => .error e
    | .ok st1 => processItems remote info st1 rest

/-- The author loop: fetch the paper listing, process every item, then
checkpoint the cache to disk. -/
def processAuthors (remote : Remote) :
    SyncState → List (String × AuthorInfo) → Except Err SyncState
  | st, [] => .ok st
  | st, a :: rest =>
    match remote.authorPapers a.2.s2id with
    | .error msg => .error (.upstream msg)
    | .ok items =>
      let st1 : SyncState := { st with events := st.events ++ [.authorFetch a.2.s2id] }
      match processItems remote a.2 st1 items with
      | .error e => .error e
      | .ok st2 =>
        processAuthors remote
          { st2 with events := st2.events ++ [.checkpoint (st2.cache.map fun p => p.2)] }
          rest

/-- The ids an author listing contributes to the seen set: the paper ids
of its non-skipped items, in listing order. -/
def seenIdsItems (info : AuthorInfo) (items : List PaperItem) : List String :=
  (items.filter fun it => !skips info it).map fun it => it.paperId

/-- The seen contribution of one roster entry under a given remote. -/
def seenIdsAuthor (remote : Remote) (a : String × AuthorInfo) : List String :=
  match remote.authorPapers a.2.s2id with
  | .ok items => seenIdsItems a.2 items
  | .error _ => []

/-- The ids a full run marks seen, roster order. -/
def seenIdsRoster (remote : Remote) (roster : List (String × AuthorInfo)) : List String :=
  (roster.map (seenIdsAuthor remote)).flatten

/-- The invariant of a synchronization run: cache keys are unique, every
record is stored under its own paper id, and every seen id is stored with
a populated citation. -/
def Inv (st : SyncState) : Prop :=
  (keys st.cache).Nodup
  ∧ (∀ p ∈ st.cache, p.2.paperId = p.1)
  ∧ (∀ id ∈ st.seen, ∃ r, lookupId st.cache id = some r ∧ r.bibtex.isSome)

def initState (file : List PaperRecord) : SyncState :=
  { cache := loadCache file, seen := [], events := [] }

/-- update_cache: load the cache file, run the author loop, evict every
record whose id was never seen, and checkpoint once more. -/
def update_cache (remote : Remote) (roster : List (String × AuthorInfo))
    (file : List PaperRecord) : Except Err SyncState :=
  match processAuthors remote (initState file) roster with
  | .error e => .error e
  | .ok st =>
    let cache2 := st.cache.filter fun p => decide (p.1 ∈ st.seen)
    .ok { cache := cache2, seen := st.seen,
          events := st.events ++ [.checkpoint (cache2.map fun p => p.2)] }

/-! ## The bibliography assembler: convert_to_bib -/

/-- The whitespace set of Python str.rstrip(). -/
def isPySpace (c : Char) : Bool :=
  c = ' ' || c = '\t' || c = '\n' || c = '\r' || c = '\x0b' || c = '\x0c'

/-- Python str.rstrip(). -/
def pyRstrip (s : String) : String :=
  String.mk ((s.toList.reverse.dropWhile isPySpace).reverse)

/-- The dict-comprehension deduplication of convert_to_bib: key order is
first appearance, the value of a duplicated key is its last occurrence. -/
def dedupById (cache : List PaperRecord) : List PaperRecord :=
  (cache.foldl (fun acc r => upsert acc r.paperId r) []).map fun p => p.2

/-- The sort key of convert_to_bib.  It is only ever applied to records
that passed the year filter, where it equals the effective year. -/
def yearKey (r : PaperRecord) : Int :=
  (get_year r).getD 0

/-- The descending comparison used by the stable sort. -/
def yearGE (a b : PaperRecord) : Prop :=
  yearKey b ≤ yearKey a

instance : DecidableRel yearGE := fun a b =>
  inferInstanceAs (Decidable (yearKey b ≤ yearKey a))

instance : IsTotal PaperRecord yearGE :=
  ⟨fun a b => le_total (yearKey b) (yearKey a)⟩

instance : IsTrans PaperRecord yearGE :=
  ⟨fun _ _ _ h1 h2 => le_trans h2 h1⟩

/-- Python sorted with reverse=True is a stable descending sort; insertion
sort with the descending comparison computes the same list. -/
def sortByYearDesc (l : List PaperRecord) : List PaperRecord :=
  List.insertionSort yearGE l

/-- Reading the bibtex field of every entry; a missing field is a Python
KeyError. -/
def allBibs : List PaperRecord → Option (List String)
  | [] => some []
  | r :: rest =>
    match r.bibtex, allBibs rest with
    | some b, some bs => some (b :: bs)
    | _, _ => none

/-- The deduped, year-filtered, sorted entry list whose citations the
assembler writes. -/
def assembledEntries (cache : List PaperRecord) : List PaperRecord :=
  sortByYearDesc ((dedupById cache).filter fun r => (get_year r).isSome)

/-- convert_to_bib: each rstripped citation gets its own line, then the
externally fetched legacy fragments are appended (print adds a final
newline). -/
def convert_to_bib (cache : List PaperRecord) (fragments : String) :
    Except Err String :=
  match allBibs (assembledEntries cache) with
  | none => .error (.keyError "bibtex")
  | some bibs =>
    .ok (String.join (bibs.map fun b => pyRstrip b ++ "\n") ++ fragments ++ "\n")

/-- Does a record carry the given effective year? (the tie class of the sort). -/
def hasYear (y : Int) (r : PaperRecord) : Bool :=
  decide (get_year r = some y)

/-! ## Concrete fixtures used by witnesses and counterexamples -/

def stEmpty : SyncState :=
  { cache := [], seen := [], events := [] }

/-- A remote that is never consulted successfully; used where the oracle is irrelevant. -/
def remoteW0 : Remote :=
  { authorPapers := fun _ => .ok [],
    paperDetails := fun _ => .error "unused",
    anthology := fun _ => none }

def resp429x3 : Nat → HttpResp :=
  fun n => if n ≤ 3 then { status := 429, body := "" } else { status := 200, body := "payload" }

def resp500 : Nat → HttpResp :=
  fun _ => { status := 500, body := "" }

def resp503 : Nat → HttpResp :=
  fun _ => { status := 503, body := "" }

def resp200 : Nat → HttpResp :=
  fun _ => { status := 200, body := "authorJson" }

/-- A well-formed record with both an anthology id and a corpus id. -/
def rC5 : PaperRecord :=
  { paperId := "p5", title := "T5", venue := some "V5", year := some 2020,
    publicationDate := none, authors := ["A"], url := "https://example.org/p5",
    externalIds := { acl := some "2020.acl-main.1", corpusId := some 42 },
    journal := none, bibtex := none }

/-- A record missing the CorpusId key although an anthology id is present. -/
def rMal : PaperRecord :=
  { paperId := "pm", title := "TM", venue := some "VM", year := some 2021,
    publicationDate := none, authors := ["B"], url := "https://example.org/pm",
    externalIds := { acl := some "2021.acl-long.7", corpusId := none },
    journal := none, bibtex := none }

/-- A cached record whose citation is already rendered. -/
def rCached : PaperRecord :=
  { paperId := "p1", title := "T1", venue := some "V1", year := some 2019,
    publicationDate := none, authors := ["C"], url := "https://example.org/p1",
    externalIds := { acl := none, corpusId := some 7 },
    journal := none, bibtex := some "CACHED-BIB" }

def stC2 : SyncState :=
  { cache := [("p1", rCached)], seen := [], events := [] }

/-- Paper details the witness remote returns: keyed by the queried id. -/
def recBase (id : String) : PaperRecord :=
  { paperId := id, title := "T " ++ id, venue := some "V", year := some 2020,
    publicationDate := none, authors := ["D"], url := "https://example.org/" ++ id,
    externalIds := { acl := none, corpusId := some 9 },
    journal := none, bibtex := none }

/-- A deterministic remote for whole-run witnesses. -/
def remoteW : Remote :=
  { authorPapers := fun _ => .ok [{ paperId := "p1", year := some (some 2020) }],
    paperDetails := fun id => .ok (recBase id),
    anthology := fun _ => none }

def rosterW : List (String × AuthorInfo) :=
  [("A", { s2id := "a1", start_year := none, end_year := none })]

/-- The record of the witness run after its citation backfill. -/
def recW1 : PaperRecord :=
  { recBase "p1" with bibtex := some (fallbackEntry (recBase "p1") 9 (recBase "p1").url) }

/-- The final state of the witness first run. -/
def stW : SyncState :=
  { cache := [("p1", recW1)], seen := ["p1"],
    events := [.authorFetch "a1", .paperFetch "p1", .checkpoint [recW1], .checkpoint [recW1]] }

/-- The entries of the concrete stable-sort example: years 2020, 2019, 2020, unresolvable. -/
def e20a : PaperRecord :=
  { rC5 with
    paperId := "e1", externalIds := { acl := none, corpusId := some 1 },
    bibtex := some "b1" }

def e19 : PaperRecord :=
  { rC5 with
    paperId := "e2", year := some 2019,
    externalIds := { acl := none, corpusId := some 2 }, bibtex := some "b2" }

def e20b : PaperRecord :=
  { rC5 with
    paperId := "e3", externalIds := { acl := none, corpusId := some 3 },
    bibtex := some "b3" }

def eNone : PaperRecord :=
  { rC5 with
    paperId := "e4", year := none, publicationDate := none,
    externalIds := { acl := none, corpusId := some 4 }, bibtex := some "b4" }

/-! ## Lemmas about the resilient fetcher -/

/-- One unfolding of the retry loop. -/
theorem rrLoop_succ (url : String) (resp : Nat → HttpResp) (fuel attempt : Nat)
    (evs : List NetEv) :
    rrLoop url resp (fuel + 1) attempt evs =
      if (resp attempt).status = 200 then
        (.ok (resp attempt).body, evs ++ [.get url, .pacingSleep])
      else if (resp attempt).status = 429 then
        rrLoop url resp fuel (attempt + 1) (evs ++ [.get url, .backoffSleep (2 ^ attempt)])
      else
        rrLoop url resp fuel (attempt + 1) (evs ++ [.get url, .shortSleep]) := rfl

/-- The event accumulator of the retry loop is write-only: the trace of a
run is the initial trace followed by the trace of the run started empty. -/
theorem rrLoop_events_acc (url : String) (resp : Nat → HttpResp) :
    ∀ (fuel attempt : Nat) (evs : List NetEv),
      rrLoop url resp fuel attempt evs =
        ((rrLoop url resp fuel attempt []).1, evs ++ (rrLoop url resp fuel attempt []).2) := by
  intro fuel
  induction fuel with
  | zero => intro attempt evs; simp [rrLoop]
  | succ n ih =>
    intro attempt evs
    simp only [rrLoop]
    split
    · simp
    · split
      · rw [ih (attempt + 1) (evs ++ [NetEv.get url, NetEv.backoffSleep (2 ^ attempt)]),
            ih (attempt + 1) ([] ++ [NetEv.get url, NetEv.backoffSleep (2 ^ attempt)])]
        simp
      · rw [ih (attempt + 1) (evs ++ [NetEv.get url, NetEv.shortSleep]),
            ih (attempt + 1) ([] ++ [NetEv.get url, NetEv.shortSleep])]
        simp

/-- If every attempt the loop can still make fails, the loop raises the
fixed exhaustion message. -/
theorem rrLoop_exhausts (url : String) (resp : Nat → HttpResp) :
    ∀ (fuel attempt : Nat) (evs : List NetEv),
      (∀ j, attempt ≤ j → j < attempt + fuel → (resp j).status ≠ 200) →
      (rrLoop url resp fuel attempt evs).1 = .error RETRY_MSG := by
  intro fuel
  induction fuel with
  | zero => intro attempt evs _; simp [rrLoop]
  | succ n ih =>
    intro attempt evs h
    have hne : (resp attempt).status ≠ 200 := h attempt (Nat.le_refl attempt) (by omega)
    have hrest : ∀ j, attempt + 1 ≤ j → j < attempt + 1 + n → (resp j).status ≠ 200 := by
      intro j h1 h2; exact h j (by omega) (by omega)
    simp only [rrLoop]
    split
    · exact absurd (by assumption) hne
    · split
      · exact ih (attempt + 1) _ hrest
      · exact ih (attempt + 1) _ hrest

/-- C6 (amended): every HTTP 429 below the retry ceiling causes a backoff
sleep of 2 ^ attempt seconds — doubling per attempt with a first backoff of
2 seconds, not base 1 second — and every other non-200 status causes a
retry after the fixed short delay; three consecutive 429 responses followed
by a 200 yield exactly three backoff sleeps of strictly increasing duration
(2, 4, 8) and the decoded payload. -/
theorem retry_backoff_schedule (url : String) (resp : Nat → HttpResp)
    (h1 : (resp 1).status = 429) (h2 : (resp 2).status = 429)
    (h3 : (resp 3).status = 429) (h4 : (resp 4).status = 200) :
    return_request url resp =
      (.ok (resp 4).body,
        [.get url, .backoffSleep 2, .get url, .backoffSleep 4, .get url, .backoffSleep 8,
         .get url, .pacingSleep])
    ∧ backoffs (return_request url resp).2 = [2, 4, 8]
    ∧ List.Chain' (fun a b => a < b) (backoffs (return_request url resp).2)
    ∧ (∀ fuel attempt evs, (resp attempt).status = 429 →
        rrLoop url resp (fuel + 1) attempt evs =
          rrLoop url resp fuel (attempt + 1) (evs ++ [.get url, .backoffSleep (2 ^ attempt)]))
    ∧ (∀ fuel attempt evs, (resp attempt).status ≠ 200 → (resp attempt).status ≠ 429 →
        rrLoop url resp (fuel + 1) attempt evs =
          rrLoop url resp fuel (attempt + 1) (evs ++ [.get url, .shortSleep])) := by
  have hrun : return_request url resp =
      (.ok (resp 4).body,
        [.get url, .backoffSleep 2, .get url, .backoffSleep 4, .get url, .backoffSleep 8,
         .get url, .pacingSleep]) := by
    simp only [return_request]
    simp [rrLoop, h1, h2, h3, h4]
  refine ⟨hrun, by rw [hrun]; rfl, ?_, ?_, ?_⟩
  · rw [hrun]
    show List.Chain' (fun a b => a < b) ([2, 4, 8] : List Nat)
    simp [List.chain'_cons]
  · intro fuel attempt evs h429
    simp [rrLoop, h429]
  · intro fuel attempt evs hn200 hn429
    simp [rrLoop, hn200, hn429]

/-- C6 witness: the schedule theorem applied to a concrete oracle that
answers 429 on the first three attempts and 200 with a payload afterwards. -/
theorem retry_backoff_schedule_witness :
    return_request "u" resp429x3 =
      (.ok "payload",
        [.get "u", .backoffSleep 2, .get "u", .backoffSleep 4, .get "u", .backoffSleep 8,
         .get "u", .pacingSleep]) :=
  (retry_backoff_schedule "u" resp429x3 (by decide) (by decide) (by decide) (by decide)).1

/-- C6 counterexample: for three consecutive 429 responses the code sleeps
2, 4 and 8 seconds, so the backoff does not start at the claimed base of 1
second (the Python code overwrites sleep_time with 2 ** attempt_no before
the first sleep); the sleeps are nevertheless strictly increasing and the
payload is returned. -/
theorem retry_backoff_base_cex :
    backoffs (return_request "u" resp429x3).2 = [2, 4, 8]
    ∧ (2 : Nat) ≠ 1
    ∧ (return_request "u" resp429x3).1 = .ok "payload" := by
  refine ⟨by rfl, by decide, by rfl⟩

/-- C7 (amended): when every attempt up to the budget of 9 returns a
non-200 status, return_request raises an exception whose message is the
fixed string RETRY_MSG — it carries neither the last status code nor even
the attempt count (the source lacks the f-prefix) — and an upstream error
raised while fetching an author listing propagates out of update_cache
unchanged, terminating the run. -/
theorem upstream_exhaustion_fatal (url : String) (resp : Nat → HttpResp)
    (h : ∀ j, 1 ≤ j → j ≤ 9 → (resp j).status ≠ 200) :
    (return_request url resp).1 = .error RETRY_MSG
    ∧ (∀ (remote : Remote) (name : String) (info : AuthorInfo)
         (rest : List (String × AuthorInfo)) (file : List PaperRecord) (e : String),
        remote.authorPapers info.s2id = .error e →
        update_cache remote ((name, info) :: rest) file = .error (.upstream e)) := by
  constructor
  · exact rrLoop_exhausts url resp 9 1 [] (fun j hj1 hj2 => h j hj1 (by omega))
  · intro remote name info rest file e he
    unfold update_cache processAuthors
    rw [he]

/-- C7 witness: exhaustion on a persistently failing oracle, and
propagation of an author-listing failure out of a concrete run. -/
theorem upstream_exhaustion_fatal_witness :
    (return_request "u" resp500).1 = .error RETRY_MSG
    ∧ update_cache
        { authorPapers := fun _ => .error "boom",
          paperDetails := fun _ => .error "unused",
          anthology := fun _ => none }
        rosterW [] = .error (.upstream "boom") := by
  have h := upstream_exhaustion_fatal "u" resp500 (fun j _ _ =>
    (by decide : (500 : Nat) ≠ 200))
  exact ⟨h.1, h.2 _ "A" { s2id := "a1", start_year := none, end_year := none } [] [] "boom" rfl⟩

/-- C7 counterexample: two runs whose last received statuses differ (500
against 503) terminate with byte-identical errors, so the raised error
cannot carry the last received status code; both messages are the literal
unformatted RETRY_MSG string. -/
theorem upstream_no_status_cex :
    return_request "u" resp500 = return_request "u" resp503
    ∧ (return_request "u" resp500).1 = .error RETRY_MSG := by
  refine ⟨by rfl, by rfl⟩

/-- C10 (amended): return_request performs no validation of the resource
identifier: a call whose templated URL was built from an empty identifier
immediately issues a network request to that URL, exactly as for any other
identifier, whatever the remote answers. -/
theorem no_resource_id_validation (resp : Nat → HttpResp) :
    ∃ rest, (return_request (AUTHOR_DETAILS_URL "") resp).2 =
      .get (AUTHOR_DETAILS_URL "") :: rest := by
  simp only [return_request]
  show ∃ rest, (rrLoop (AUTHOR_DETAILS_URL "") resp (8 + 1) 1 []).2 = _
  rw [rrLoop_succ]
  split
  · exact ⟨[.pacingSleep], rfl⟩
  · split
    · rw [rrLoop_events_acc (AUTHOR_DETAILS_URL "") resp 8 2
        ([] ++ [NetEv.get (AUTHOR_DETAILS_URL ""), NetEv.backoffSleep (2 ^ 1)])]
      exact ⟨_, rfl⟩
    · rw [rrLoop_events_acc (AUTHOR_DETAILS_URL "") resp 8 2
        ([] ++ [NetEv.get (AUTHOR_DETAILS_URL ""), NetEv.shortSleep])]
      exact ⟨_, rfl⟩

/-- C10 counterexample: with an empty resource identifier the fetcher does
not fail with any invalid-request error and it does issue a network
request: against a healthy remote the call performs a GET of the templated
URL (empty id spliced in) and returns the decoded body. -/
theorem invalid_request_cex :
    return_request (AUTHOR_DETAILS_URL "") resp200 =
      (.ok "authorJson", [.get (AUTHOR_DETAILS_URL ""), .pacingSleep]) := by
  rfl

/-! ## The citation renderer -/

/-- C5 (amended): with the corpus identifier present, an anthology id whose
fetch succeeds makes render return the anthology text verbatim; when the
anthology id is absent the local template is populated with the record
fields including the record URL; but when an anthology id is present and
its fetch fails, the template is populated with the constructed anthology
URL instead of the record URL (the code reassigns the url variable before
the fetch). -/
theorem renderer_precedence (anth : String → Option String) (r : PaperRecord) (cid : Nat)
    (hc : r.externalIds.corpusId = some cid) :
    (∀ aid text, r.externalIds.acl = some aid →
        anth (ANTHOLOGY_TEMPLATE aid) = some text →
        get_bibtex anth r = .ok (text, [.anthologyFetch (ANTHOLOGY_TEMPLATE aid)]))
    ∧ (∀ aid, r.externalIds.acl = some aid →
        anth (ANTHOLOGY_TEMPLATE aid) = none →
        get_bibtex anth r =
          .ok (fallbackEntry r cid (ANTHOLOGY_TEMPLATE aid),
               [.anthologyFetch (ANTHOLOGY_TEMPLATE aid)]))
    ∧ (r.externalIds.acl = none →
        get_bibtex anth r = .ok (fallbackEntry r cid r.url, [])) := by
  refine ⟨?_, ?_, ?_⟩
  · intro aid text hacl hfetch
    simp [get_bibtex, hc, hacl, hfetch]
  · intro aid hacl hfetch
    simp [get_bibtex, hc, hacl, hfetch]
  · intro hacl
    simp [get_bibtex, hc, hacl]

/-- C5 witness: the precedence theorem applied to the concrete record rC5,
once with a reachable anthology and once without one. -/
theorem renderer_precedence_witness :
    get_bibtex (fun _ => some "ANTH-TEXT") rC5 =
      .ok ("ANTH-TEXT", [.anthologyFetch (ANTHOLOGY_TEMPLATE "2020.acl-main.1")]) ∧
    get_bibtex (fun _ => none)
        { rC5 with externalIds := { acl := none, corpusId := some 42 } } =
      .ok (fallbackEntry { rC5 with externalIds := { acl := none, corpusId := some 42 } }
             42 rC5.url, []) :=
  ⟨(renderer_precedence (fun _ => some "ANTH-TEXT") rC5 42 (by decide)).1
      "2020.acl-main.1" "ANTH-TEXT" (by decide) rfl,
   (renderer_precedence (fun _ => none)
        { rC5 with externalIds := { acl := none, corpusId := some 42 } } 42 (by decide)).2.2
      (by decide)⟩

/-- C5 counterexample: for a record with an anthology id whose fetch fails,
the rendered fallback embeds the constructed anthology URL, which differs
from the template populated with the record URL that the claim asserts. -/
theorem renderer_fallback_url_cex :
    get_bibtex (fun _ => none) rC5 =
      .ok (fallbackEntry rC5 42 (ANTHOLOGY_TEMPLATE "2020.acl-main.1"),
           [.anthologyFetch (ANTHOLOGY_TEMPLATE "2020.acl-main.1")])
    ∧ fallbackEntry rC5 42 (ANTHOLOGY_TEMPLATE "2020.acl-main.1") ≠
        fallbackEntry rC5 42 rC5.url := by
  refine ⟨by rfl, by decide⟩

/-- C9: a record whose external identifiers lack the corpus id makes the
renderer fail with the KeyError on CorpusId — before and regardless of any
anthology lookup — and the failure propagates out of the bibtex backfill
step of the synchronizer rather than being swallowed. -/
theorem malformed_record_error (remote : Remote) (r : PaperRecord)
    (h : r.externalIds.corpusId = none) :
    get_bibtex remote.anthology r = .error (.keyError "CorpusId")
    ∧ (r.bibtex = none → ∀ st id, ensureBibtex remote.anthology st id r =
        .error (.keyError "CorpusId")) := by
  constructor
  · simp [get_bibtex, h]
  · intro hb st id
    simp [ensureBibtex, hb, get_bibtex, h]

/-- C9 witness: the malformed record rMal carries an anthology id yet still
fails with the CorpusId KeyError, both in the renderer and in the backfill. -/
theorem malformed_record_error_witness :
    get_bibtex remoteW0.anthology rMal = .error (.keyError "CorpusId")
    ∧ ensureBibtex remoteW0.anthology stEmpty "pm" rMal = .error (.keyError "CorpusId") :=
  ⟨(malformed_record_error remoteW0 rMal (by decide)).1,
   (malformed_record_error remoteW0 rMal (by decide)).2 (by decide) stEmpty "pm"⟩

/-! ## The bibliography assembler -/

theorem get_year_eq_key {r : PaperRecord} (h : (get_year r).isSome) :
    get_year r = some (yearKey r) := by
  rcases hy : get_year r with _ | y
  · rw [hy] at h; cases h
  · simp [yearKey, hy]

/-- Inserting an element into the descending order keeps the filter on any
fixed effective year intact apart from prepending the element when it has
that year: the passed-over prefix consists of strictly larger years. -/
theorem filter_orderedInsert (y : Int) (x : PaperRecord) (hx : (get_year x).isSome) :
    ∀ l : List PaperRecord, (∀ r ∈ l, (get_year r).isSome) →
      (List.orderedInsert yearGE x l).filter (hasYear y) =
        if hasYear y x then x :: l.filter (hasYear y) else l.filter (hasYear y)
  | [], _ => by
    simp only [List.orderedInsert, List.filter_cons, List.filter_nil]
  | b :: t, hmem => by
    have hb : (get_year b).isSome := hmem b (List.mem_cons_self b t)
    have ht : ∀ r ∈ t, (get_year r).isSome := fun r hr => hmem r (List.mem_cons_of_mem b hr)
    by_cases hxb : yearGE x b
    · simp only [List.orderedInsert, if_pos hxb, List.filter_cons]
    · have hlt : yearKey x < yearKey b := lt_of_not_le hxb
      simp only [List.orderedInsert, if_neg hxb, List.filter_cons]
      rw [filter_orderedInsert y x hx t ht]
      by_cases hpx : hasYear y x
      · have hyx : get_year x = some y := of_decide_eq_true hpx
        have hkx : yearKey x = y := by
          have := get_year_eq_key hx
          rw [hyx] at this; exact (Option.some.injEq _ _).mp this.symm
        have hpb : hasYear y b = false := by
          apply decide_eq_false
          intro hyb
          have hkb : yearKey b = y := by
            have := get_year_eq_key hb
            rw [hyb] at this; exact (Option.some.injEq _ _).mp this.symm
          omega
        simp [hpx, hpb]
      · have hpx2 : hasYear y x = false := by
          cases h2 : hasYear y x
          · rfl
          · exact absurd h2 hpx
        simp [hpx2]

/-- The insertion sort of convert_to_bib is stable: restricted to the
records of any fixed effective year, the sorted list equals the input. -/
theorem filter_insertionSort (y : Int) :
    ∀ l : List PaperRecord, (∀ r ∈ l, (get_year r).isSome) →
      (List.insertionSort yearGE l).filter (hasYear y) = l.filter (hasYear y)
  | [], _ => rfl
  | x :: t, h => by
    have hx : (get_year x).isSome := h x (List.mem_cons_self x t)
    have ht : ∀ r ∈ t, (get_year r).isSome := fun r hr => h r (List.mem_cons_of_mem x hr)
    have hsort : ∀ r ∈ List.insertionSort yearGE t, (get_year r).isSome := fun r hr =>
      ht r ((List.perm_insertionSort yearGE t).mem_iff.mp hr)
    rw [List.insertionSort, filter_orderedInsert y x hx _ hsort,
        filter_insertionSort y t ht, List.filter_cons]

theorem allBibs_isSome :
    ∀ l : List PaperRecord, (∀ r ∈ l, r.bibtex.isSome) →
      allBibs l = some (l.map fun r => r.bibtex.getD "")
  | [], _ => rfl
  | r :: t, h => by
    obtain ⟨b, hb⟩ := Option.isSome_iff_exists.mp (h r (List.mem_cons_self r t))
    have ht : ∀ x ∈ t, x.bibtex.isSome := fun x hx => h x (List.mem_cons_of_mem r hx)
    simp [allBibs, hb, allBibs_isSome t ht]

/-- C8: the assembler deduplicates by paper id, discards entries without a
resolvable effective year, sorts the rest by effective year descending with
ties keeping their prior relative order (the filter on every fixed year is
unchanged), and concatenates the rstripped citations before appending the
legacy fragments; on years [2020, 2019, 2020, unresolvable] the output
order is [2020, 2020, 2019] with the tied entries in original order and
the yearless entry discarded. -/
theorem assembly_order (cache : List PaperRecord) (fragments : String)
    (hb : ∀ r ∈ assembledEntries cache, r.bibtex.isSome) :
    List.Sorted yearGE (assembledEntries cache)
    ∧ List.Perm (assembledEntries cache)
        ((dedupById cache).filter (fun r => (get_year r).isSome))
    ∧ (∀ y : Int, (assembledEntries cache).filter (hasYear y) =
        ((dedupById cache).filter fun r => (get_year r).isSome).filter (hasYear y))
    ∧ convert_to_bib cache fragments =
        .ok (String.join ((assembledEntries cache).map
              fun r => pyRstrip (r.bibtex.getD "") ++ "\n") ++ fragments ++ "\n")
    ∧ assembledEntries [e20a, e19, e20b, eNone] = [e20a, e20b, e19] := by
  have hkept : ∀ r ∈ (dedupById cache).filter (fun r => (get_year r).isSome),
      (get_year r).isSome := by
    intro r hr
    exact (List.mem_filter.mp hr).2
  refine ⟨List.sorted_insertionSort yearGE _, List.perm_insertionSort yearGE _, ?_, ?_, by decide⟩
  · intro y
    exact filter_insertionSort y _ hkept
  · unfold convert_to_bib
    rw [allBibs_isSome _ hb]
    simp only [List.map_map]
    rfl

/-- C8 witness: the assembler applied to the concrete store of the claim
example, with every citation present and a legacy fragment appended. -/
theorem assembly_order_witness :
    convert_to_bib [e20a, e19, e20b, eNone] "LEGACY" =
      .ok (String.join ((assembledEntries [e20a, e19, e20b, eNone]).map
            fun r => pyRstrip (r.bibtex.getD "") ++ "\n") ++ "LEGACY" ++ "\n") :=
  (assembly_order [e20a, e19, e20b, eNone] "LEGACY" (by decide)).2.2.2.1

/-! ## Association list lemmas for the cache -/

theorem lookupId_eq_none {c : List (String × PaperRecord)} {id : String} :
    lookupId c id = none ↔ id ∉ keys c := by
  induction c with
  | nil => simp [lookupId, keys]
  | cons p t ih =>
    obtain ⟨k, v⟩ := p
    by_cases hk : k = id
    · subst hk
      simp [lookupId, keys]
    · simp [lookupId, hk, keys, ih]
      intro h
      exact fun he => hk he.symm

theorem lookupId_append (c d : List (String × PaperRecord)) (id : String) :
    lookupId (c ++ d) id =
      match lookupId c id with
      | some v => some v
      | none => lookupId d id := by
  induction c with
  | nil => simp [lookupId]
  | cons p t ih =>
    obtain ⟨k, v⟩ := p
    by_cases hk : k = id
    · simp [lookupId, hk]
    · simp [lookupId, hk, ih]

theorem lookupId_setBibtexAt (c : List (String × PaperRecord)) (id id2 b : String) :
    lookupId (setBibtexAt c id b) id2 =
      if id2 = id then (lookupId c id2).map fun r => { r with bibtex := some b }
      else lookupId c id2 := by
  induction c with
  | nil =>
    simp only [setBibtexAt, lookupId]
    split <;> rfl
  | cons p t ih =>
    obtain ⟨k, v⟩ := p
    by_cases hk : k = id
    · rw [show setBibtexAt ((k, v) :: t) id b = (k, { v with bibtex := some b }) :: t from by
        simp [setBibtexAt, hk]]
      by_cases h2 : id2 = id
      · have hk2 : k = id2 := by rw [hk, h2]
        rw [if_pos h2]
        simp [lookupId, hk2]
      · have hk2 : ¬ k = id2 := by rw [hk]; exact fun he => h2 he.symm
        rw [if_neg h2]
        simp [lookupId, hk2]
    · rw [show setBibtexAt ((k, v) :: t) id b = (k, v) :: setBibtexAt t id b from by
        simp [setBibtexAt, hk]]
      by_cases hk2 : k = id2
      · have h2 : ¬ id2 = id := by rw [← hk2]; exact hk
        rw [if_neg h2]
        simp [lookupId, hk2]
      · simp [lookupId, hk2, ih]

theorem keys_setBibtexAt (c : List (String × PaperRecord)) (id b : String) :
    keys (setBibtexAt c id b) = keys c := by
  induction c with
  | nil => rfl
  | cons p t ih =>
    obtain ⟨k, v⟩ := p
    by_cases hk : k = id
    · simp [setBibtexAt, hk, keys]
    · simp [setBibtexAt, hk, keys] at ih ⊢
      exact ih

theorem mem_of_lookupId {c : List (String × PaperRecord)} {id : String} {r : PaperRecord}
    (h : lookupId c id = some r) : (id, r) ∈ c := by
  induction c with
  | nil => cases h
  | cons p t ih =>
    obtain ⟨k, v⟩ := p
    by_cases hk : k = id
    · subst hk
      simp [lookupId] at h
      subst h
      exact List.mem_cons_self _ _
    · simp [lookupId, hk] at h
      exact List.mem_cons_of_mem _ (ih h)

theorem lookupId_of_mem {c : List (String × PaperRecord)} {id : String} {r : PaperRecord}
    (hnd : (keys c).Nodup) (h : (id, r) ∈ c) : lookupId c id = some r := by
  induction c with
  | nil => cases h
  | cons p t ih =>
    obtain ⟨k, v⟩ := p
    rcases List.mem_cons.mp h with he | ht
    · cases he
      simp [lookupId]
    · have hk : k ≠ id := by
        intro hk
        subst hk
        have : k ∈ keys t := List.mem_map_of_mem Prod.fst ht
        exact (List.nodup_cons.mp (by simpa [keys] using hnd)).1 this
      have hnd2 : (keys t).Nodup := (List.nodup_cons.mp (by simpa [keys] using hnd)).2
      simp [lookupId, hk]
      exact ih hnd2 ht

/-! ## C1: the tenure window filter -/

/-- C1 (amended): an item is skipped by the tenure filter exactly when a
nonzero tenure-start year exists, the item carries a known nonzero year
below it, or a nonzero tenure-end year exists and the known nonzero year
exceeds it (Python truthiness treats a zero year or zero bound as absent);
a skipped item leaves the run state completely untouched; for
start_year 2015 and end_year 2020, year 2014 is excluded, 2015 included,
2021 excluded and an absent year included. -/
theorem tenure_window_filter (info : AuthorInfo) (item : PaperItem) :
    (skips info item = true ↔
      (∃ s, info.start_year = some s ∧ s ≠ 0 ∧
        ∃ y, item.year = some (some y) ∧ y ≠ 0 ∧ y < s) ∨
      (∃ e, info.end_year = some e ∧ e ≠ 0 ∧
        ∃ y, item.year = some (some y) ∧ y ≠ 0 ∧ e < y))
    ∧ (∀ (remote : Remote) (st : SyncState), skips info item = true →
        processItem remote info st item = .ok st)
    ∧ skips { s2id := "x", start_year := some 2015, end_year := some 2020 }
        { paperId := "p", year := some (some 2014) } = true
    ∧ skips { s2id := "x", start_year := some 2015, end_year := some 2020 }
        { paperId := "p", year := some (some 2015) } = false
    ∧ skips { s2id := "x", start_year := some 2015, end_year := some 2020 }
        { paperId := "p", year := some (some 2021) } = true
    ∧ skips { s2id := "x", start_year := some 2015, end_year := some 2020 }
        { paperId := "p", year := none } = false := by
  refine ⟨?_, ?_, by decide, by decide, by decide, by decide⟩
  · obtain ⟨sid, sy, ey⟩ := info
    obtain ⟨pid, yr⟩ := item
    rcases sy with _ | s <;> rcases ey with _ | e <;> rcases yr with _ | oy
    all_goals try rcases oy with _ | y
    all_goals simp only [skips]
    all_goals simp
    all_goals omega
  · intro remote st h
    simp [processItem, h]

/-- C1 witness: a concrete skipped item (year 2014 before start 2015)
leaves a concrete state untouched. -/
theorem tenure_window_filter_witness :
    processItem remoteW0 { s2id := "x", start_year := some 2015, end_year := some 2020 }
      stC2 { paperId := "p", year := some (some 2014) } = .ok stC2 :=
  (tenure_window_filter { s2id := "x", start_year := some 2015, end_year := some 2020 }
      { paperId := "p", year := some (some 2014) }).2.1 remoteW0 stC2 (by decide)

/-- C1 counterexample: a paper that carries the known year 0, below the
start year 2015, must be skipped according to the claim, but Python
truthiness makes the code treat year 0 like an absent year and the item is
not skipped. -/
theorem tenure_window_filter_cex :
    (∃ s : Int, (some 2015 : Option Int) = some s ∧
      ∃ y : Int, (some (some 0) : Option (Option Int)) = some (some y) ∧ y < s)
    ∧ skips { s2id := "x", start_year := some 2015, end_year := none }
        { paperId := "p", year := some (some 0) } = false :=
  ⟨⟨2015, rfl, 0, rfl, by norm_num⟩, by decide⟩

/-! ## C2: dedup on reuse and citation immutability -/

theorem get_bibtex_events {anth : String → Option String} {r : PaperRecord}
    {b : String} {evs : List Event}
    (h : get_bibtex anth r = .ok (b, evs)) :
    ∀ pid, Event.paperFetch pid ∉ evs := by
  intro pid
  unfold get_bibtex at h
  rcases hcid : r.externalIds.corpusId with _ | cid
  · simp only [hcid] at h
    cases h
  · simp only [hcid] at h
    rcases hacl : r.externalIds.acl with _ | aid
    · simp only [hacl, Except.ok.injEq, Prod.mk.injEq] at h
      rw [← h.2]
      simp
    · simp only [hacl] at h
      rcases ha : anth (ANTHOLOGY_TEMPLATE aid) with _ | text <;>
        simp only [ha, Except.ok.injEq, Prod.mk.injEq] at h <;>
        rw [← h.2] <;> simp

/-- C2: a paper id already present in the cache when its item is processed
is reused: no paper-details fetch event is ever emitted; when its stored
citation is populated the whole cache (hence the stored record) is left
unchanged; when the citation is absent it is computed and stored, which is
the only mutation performed. -/
theorem reuse_and_immutability (remote : Remote) (info : AuthorInfo) (st : SyncState)
    (item : PaperItem) (r : PaperRecord)
    (hns : skips info item = false)
    (hr : lookupId st.cache item.paperId = some r) :
    (∀ st2, processItem remote info st item = .ok st2 →
      ∃ evs, st2.events = st.events ++ evs ∧ ∀ pid, Event.paperFetch pid ∉ evs)
    ∧ (∀ b, r.bibtex = some b →
        processItem remote info st item =
          .ok { st with seen := markSeen item.paperId st.seen })
    ∧ (r.bibtex = none →
        ∀ bib evs, get_bibtex remote.anthology r = .ok (bib, evs) →
          processItem remote info st item =
            .ok { st with seen := markSeen item.paperId st.seen,
                          cache := setBibtexAt st.cache item.paperId bib,
                          events := st.events ++ evs }) := by
  refine ⟨?_, ?_, ?_⟩
  · intro st2 hok
    unfold processItem at hok
    rw [if_neg (by simp [hns])] at hok
    simp only [hr] at hok
    unfold ensureBibtex at hok
    rcases hbt : r.bibtex with _ | b
    · rw [hbt] at hok
      rcases hgb : get_bibtex remote.anthology r with e | ⟨bib, evs⟩ <;> rw [hgb] at hok
      · cases hok
      · simp at hok
        refine ⟨evs, ?_, get_bibtex_events hgb⟩
        rw [← hok]
    · rw [hbt] at hok
      simp at hok
      exact ⟨[], by rw [← hok]; simp, by simp⟩
  · intro b hb
    unfold processItem
    rw [if_neg (by simp [hns])]
    simp only [hr]
    unfold ensureBibtex
    rw [hb]
  · intro hb bib evs hgb
    unfold processItem
    rw [if_neg (by simp [hns])]
    simp only [hr]
    unfold ensureBibtex
    rw [hb, hgb]

/-- C2 witness: processing an item whose id is cached with a populated
citation only marks it seen; the cache and the event trace are unchanged
and no fetch happens. -/
theorem reuse_and_immutability_witness :
    processItem remoteW0 { s2id := "x", start_year := none, end_year := none } stC2
      { paperId := "p1", year := some (some 2019) } =
      .ok { stC2 with seen := ["p1"] } :=
  (reuse_and_immutability remoteW0 { s2id := "x", start_year := none, end_year := none }
      stC2 { paperId := "p1", year := some (some 2019) } rCached (by decide) (by decide)).2.1
    "CACHED-BIB" (by decide)

/-! ## C3: the eviction pass -/

theorem lookupId_filter_seen (c : List (String × PaperRecord)) (seen : List String)
    (id : String) :
    lookupId (c.filter fun p => decide (p.1 ∈ seen)) id =
      if id ∈ seen then lookupId c id else none := by
  induction c with
  | nil =>
    simp only [List.filter_nil, lookupId]
    split <;> rfl
  | cons p t ih =>
    obtain ⟨k, v⟩ := p
    by_cases hm : k ∈ seen
    · rw [List.filter_cons_of_pos (by simp [hm])]
      by_cases hk : k = id
      · subst hk
        simp [lookupId, hm]
      · simp only [lookupId, if_neg hk]
        exact ih
    · rw [List.filter_cons_of_neg (by simp [hm])]
      rw [ih]
      by_cases hk : k = id
      · subst hk
        simp [lookupId, hm]
      · simp [lookupId, hk]

/-- C3: eviction removes from the store exactly the records whose id was
never marked seen during the run: every seen id keeps exactly its record,
every unseen id (for example a paper cached by a prior run that no current
author list returned) is removed, and the run ends with one more
checkpoint of the final store. -/
theorem eviction_pass (remote : Remote) (roster : List (String × AuthorInfo))
    (file : List PaperRecord) (stp : SyncState)
    (hp : processAuthors remote (initState file) roster = .ok stp) :
    ∃ stf, update_cache remote roster file = .ok stf
      ∧ (∀ id, id ∈ stp.seen → lookupId stf.cache id = lookupId stp.cache id)
      ∧ (∀ id, id ∉ stp.seen → lookupId stf.cache id = none)
      ∧ (∀ p, p ∈ stf.cache ↔ p ∈ stp.cache ∧ p.1 ∈ stp.seen)
      ∧ stf.seen = stp.seen
      ∧ stf.events = stp.events ++ [.checkpoint (stf.cache.map fun p => p.2)] := by
  have hu : update_cache remote roster file =
      .ok { cache := stp.cache.filter fun p => decide (p.1 ∈ stp.seen), seen := stp.seen,
            events := stp.events ++ [.checkpoint ((stp.cache.filter fun p =>
              decide (p.1 ∈ stp.seen)).map fun p => p.2)] } := by
    unfold update_cache
    rw [hp]
  refine ⟨_, hu, ?_, ?_, ?_, rfl, rfl⟩
  · intro id hid
    simp only [lookupId_filter_seen, if_pos hid]
  · intro id hid
    simp only [lookupId_filter_seen, if_neg hid]
  · intro p
    simp [List.mem_filter]

/-- C3 witness: a store loaded from a prior run whose id is never returned
by any roster author (here: an empty roster) is evicted by update_cache. -/
theorem eviction_pass_witness :
    ∃ stf, update_cache remoteW0 [] [rCached] = .ok stf
      ∧ lookupId stf.cache "p1" = none := by
  obtain ⟨stf, hu, _, hnone, _⟩ :=
    eviction_pass remoteW0 [] [rCached] (initState [rCached]) rfl
  exact ⟨stf, hu, hnone "p1" (by simp [initState])⟩

/-! ## Lemmas for the idempotence of a full run -/

theorem mem_markSeen (pid id : String) (s : List String) :
    id ∈ markSeen pid s ↔ id ∈ s ∨ id = pid := by
  unfold markSeen
  by_cases hm : pid ∈ s
  · rw [if_pos hm]
    constructor
    · exact Or.inl
    · rintro (h | h)
      · exact h
      · rw [h]; exact hm
  · rw [if_neg hm]
    simp [List.mem_cons]
    constructor
    · rintro (h | h)
      · exact Or.inr h
      · exact Or.inl h
    · rintro (h | h)
      · exact Or.inr h
      · exact Or.inl h

theorem setBibtexAt_pid (c : List (String × PaperRecord)) (id b : String)
    (h : ∀ p ∈ c, p.2.paperId = p.1) :
    ∀ p ∈ setBibtexAt c id b, p.2.paperId = p.1 := by
  induction c with
  | nil => intro p hp; cases hp
  | cons q t ih =>
    obtain ⟨k, v⟩ := q
    intro p hp
    by_cases hk : k = id
    · rw [show setBibtexAt ((k, v) :: t) id b = (k, { v with bibtex := some b }) :: t from by
        simp [setBibtexAt, hk]] at hp
      rcases List.mem_cons.mp hp with he | ht
      · rw [he]
        exact h (k, v) (List.mem_cons_self _ _)
      · exact h p (List.mem_cons_of_mem _ ht)
    · rw [show setBibtexAt ((k, v) :: t) id b = (k, v) :: setBibtexAt t id b from by
        simp [setBibtexAt, hk]] at hp
      rcases List.mem_cons.mp hp with he | ht
      · rw [he]
        exact h (k, v) (List.mem_cons_self _ _)
      · exact ih (fun q hq => h q (List.mem_cons_of_mem _ hq)) p ht

theorem keys_append_single (c : List (String × PaperRecord)) (k : String) (v : PaperRecord) :
    keys (c ++ [(k, v)]) = keys c ++ [k] := by
  simp [keys]

theorem upsert_not_mem (c : List (String × PaperRecord)) (k : String) (v : PaperRecord)
    (h : k ∉ keys c) : upsert c k v = c ++ [(k, v)] := by
  induction c with
  | nil => rfl
  | cons p t ih =>
    obtain ⟨k1, v1⟩ := p
    simp only [keys, List.map_cons, List.mem_cons, not_or] at h
    obtain ⟨h1, h2⟩ := h
    rw [show upsert ((k1, v1) :: t) k v = (k1, v1) :: upsert t k v from by
      simp only [upsert]
      rw [if_neg (fun he : k1 = k => h1 he.symm)]]
    rw [ih (by simpa [keys] using h2)]
    rfl

theorem foldl_upsert_fresh :
    ∀ (c acc : List (String × PaperRecord)),
      (∀ p ∈ c, p.2.paperId = p.1) →
      (keys (acc ++ c)).Nodup →
      List.foldl (fun a r => upsert a r.paperId r) acc (c.map fun p => p.2) = acc ++ c
  | [], acc, _, _ => by simp
  | (k, v) :: t, acc, hpid, hnd => by
    have hv : v.paperId = k := hpid (k, v) (List.mem_cons_self _ _)
    have hnd2 : (keys acc ++ k :: keys t).Nodup := by
      rw [show keys acc ++ k :: keys t = keys (acc ++ (k, v) :: t) from by simp [keys]]
      exact hnd
    have hk_not : k ∉ keys acc := fun hmem =>
      (List.disjoint_of_nodup_append hnd2) hmem (List.mem_cons_self _ _)
    simp only [List.map_cons, List.foldl_cons]
    rw [hv, upsert_not_mem acc k v hk_not]
    rw [show acc ++ (k, v) :: t = (acc ++ [(k, v)]) ++ t from by simp]
    exact foldl_upsert_fresh t (acc ++ [(k, v)])
      (fun p hp => hpid p (List.mem_cons_of_mem _ hp))
      (by rw [show (acc ++ [(k, v)]) ++ t = acc ++ (k, v) :: t from by simp]; exact hnd)

theorem loadCache_roundtrip (c : List (String × PaperRecord))
    (hpid : ∀ p ∈ c, p.2.paperId = p.1) (hnd : (keys c).Nodup) :
    loadCache (c.map fun p => p.2) = c := by
  have := foldl_upsert_fresh c [] hpid (by simpa [keys] using hnd)
  simpa [loadCache] using this

theorem ensureBibtex_inv (anth : String → Option String)
    (cache : List (String × PaperRecord)) (seen : List String) (events : List Event)
    (id : String) (r : PaperRecord) (st2 : SyncState)
    (hl : lookupId cache id = some r)
    (hnd : (keys cache).Nodup)
    (hpid : ∀ p ∈ cache, p.2.paperId = p.1)
    (hseen : ∀ i ∈ seen, i = id ∨ ∃ q, lookupId cache i = some q ∧ q.bibtex.isSome)
    (h : ensureBibtex anth { cache := cache, seen := seen, events := events } id r = .ok st2) :
    Inv st2 ∧ st2.seen = seen := by
  unfold ensureBibtex at h
  rcases hbt : r.bibtex with _ | b
  · simp only [hbt] at h
    rcases hgb : get_bibtex anth r with e | pair
    · simp only [hgb] at h
      cases h
    · obtain ⟨bib, evs⟩ := pair
      simp only [hgb] at h
      have h2 := Except.ok.inj h
      subst h2
      refine ⟨⟨?_, ?_, ?_⟩, rfl⟩
      · show (keys (setBibtexAt cache id bib)).Nodup
        rw [keys_setBibtexAt]
        exact hnd
      · exact setBibtexAt_pid cache id bib hpid
      · intro i hi
        rcases hseen i hi with he | ⟨q, hq, hqs⟩
        · subst he
          refine ⟨{ r with bibtex := some bib }, ?_, by simp⟩
          show lookupId (setBibtexAt cache i bib) i = _
          rw [lookupId_setBibtexAt, if_pos rfl, hl]
          rfl
        · by_cases hii : i = id
          · subst hii
            refine ⟨{ q with bibtex := some bib }, ?_, by simp⟩
            show lookupId (setBibtexAt cache i bib) i = _
            rw [lookupId_setBibtexAt, if_pos rfl, hq]
            rfl
          · refine ⟨q, ?_, hqs⟩
            show lookupId (setBibtexAt cache id bib) i = some q
            rw [lookupId_setBibtexAt, if_neg hii]
            exact hq
  · simp only [hbt] at h
    have h2 := Except.ok.inj h
    subst h2
    refine ⟨⟨hnd, hpid, ?_⟩, rfl⟩
    intro i hi
    rcases hseen i hi with he | hex
    · subst he
      exact ⟨r, hl, by rw [hbt]; rfl⟩
    · exact hex

theorem processItem_inv (remote : Remote) (info : AuthorInfo) (st : SyncState)
    (item : PaperItem) (st2 : SyncState)
    (Hpid : ∀ id r, remote.paperDetails id = .ok r → r.paperId = id)
    (hInv : Inv st) (h : processItem remote info st item = .ok st2) :
    Inv st2 ∧
    (∀ id, id ∈ st2.seen ↔
      id ∈ st.seen ∨ (skips info item = false ∧ id = item.paperId)) := by
  obtain ⟨hnd, hpid, hseen⟩ := hInv
  unfold processItem at h
  cases hs : skips info item with
  | true =>
    rw [hs] at h
    simp only [if_pos rfl] at h
    have h2 := Except.ok.inj h
    subst h2
    refine ⟨⟨hnd, hpid, hseen⟩, fun id => ?_⟩
    simp [hs]
  | false =>
    rw [hs] at h
    simp only [Bool.false_eq_true, if_false] at h
    have hseen2 : ∀ i ∈ markSeen item.paperId st.seen,
        i = item.paperId ∨ ∃ q, lookupId st.cache i = some q ∧ q.bibtex.isSome := by
      intro i hi
      rcases (mem_markSeen item.paperId i st.seen).mp hi with hold | he
      · exact Or.inr (hseen i hold)
      · exact Or.inl he
    rcases hl : lookupId st.cache item.paperId with _ | r
    · simp only [hl] at h
      rcases hd : remote.paperDetails item.paperId with msg | r
      · simp only [hd] at h
        cases h
      · simp only [hd] at h
        have hnotin : item.paperId ∉ keys st.cache := lookupId_eq_none.mp hl
        have hnd2 : (keys (st.cache ++ [(item.paperId, r)])).Nodup := by
          rw [keys_append_single]
          rw [List.nodup_append]
          refine ⟨hnd, List.nodup_singleton _, ?_⟩
          intro a ha hb
          rw [List.mem_singleton] at hb
          subst hb
          exact hnotin ha
        have hpid2 : ∀ p ∈ st.cache ++ [(item.paperId, r)], p.2.paperId = p.1 := by
          intro p hp
          rcases List.mem_append.mp hp with h1 | h1
          · exact hpid p h1
          · rw [List.mem_singleton] at h1
            subst h1
            exact Hpid item.paperId r hd
        have hl2 : lookupId (st.cache ++ [(item.paperId, r)]) item.paperId = some r := by
          rw [lookupId_append, hl]
          simp [lookupId]
        have hseen3 : ∀ i ∈ markSeen item.paperId st.seen, i = item.paperId ∨
            ∃ q, lookupId (st.cache ++ [(item.paperId, r)]) i = some q ∧ q.bibtex.isSome := by
          intro i hi
          rcases hseen2 i hi with he | ⟨q, hq, hqs⟩
          · exact Or.inl he
          · refine Or.inr ⟨q, ?_, hqs⟩
            rw [lookupId_append, hq]
        obtain ⟨hinv2, hsn⟩ := ensureBibtex_inv remote.anthology
          (st.cache ++ [(item.paperId, r)]) (markSeen item.paperId st.seen)
          (st.events ++ [.paperFetch item.paperId]) item.paperId r st2
          hl2 hnd2 hpid2 hseen3 h
        refine ⟨hinv2, fun id => ?_⟩
        rw [hsn, mem_markSeen]
        simp
    · simp only [hl] at h
      obtain ⟨hinv2, hsn⟩ := ensureBibtex_inv remote.anthology
        st.cache (markSeen item.paperId st.seen) st.events item.paperId r st2
        hl hnd hpid hseen2 h
      refine ⟨hinv2, fun id => ?_⟩
      rw [hsn, mem_markSeen]
      simp

theorem seenIdsItems_cons (info : AuthorInfo) (it : PaperItem) (rest : List PaperItem) :
    seenIdsItems info (it :: rest) =
      if skips info it = false then it.paperId :: seenIdsItems info rest
      else seenIdsItems info rest := by
  unfold seenIdsItems
  cases hs : skips info it
  · rw [List.filter_cons_of_pos (by simp [hs])]
    simp
  · rw [List.filter_cons_of_neg (by simp [hs])]
    simp

theorem seenIdsRoster_cons (remote : Remote) (a : String × AuthorInfo)
    (rest : List (String × AuthorInfo)) :
    seenIdsRoster remote (a :: rest) =
      seenIdsAuthor remote a ++ seenIdsRoster remote rest := by
  simp [seenIdsRoster]

theorem processItems_inv (remote : Remote) (info : AuthorInfo)
    (Hpid : ∀ id r, remote.paperDetails id = .ok r → r.paperId = id) :
    ∀ (items : List PaperItem) (st st2 : SyncState),
      Inv st → processItems remote info st items = .ok st2 →
      Inv st2 ∧ (∀ id, id ∈ st2.seen ↔ id ∈ st.seen ∨ id ∈ seenIdsItems info items)
  | [], st, st2, hInv, h => by
    have h2 := Except.ok.inj h
    subst h2
    exact ⟨hInv, fun id => by simp [seenIdsItems]⟩
  | it :: rest, st, st2, hInv, h => by
    rw [show processItems remote info st (it :: rest) =
        (match processItem remote info st it with
         | .error e => .error e
         | .ok st1 => processItems remote info st1 rest) from rfl] at h
    rcases h1 : processItem remote info st it with e | st1
    · simp only [h1] at h
      cases h
    · simp only [h1] at h
      obtain ⟨hInv1, hseen1⟩ := processItem_inv remote info st it st1 Hpid hInv h1
      obtain ⟨hInv2, hseen2⟩ := processItems_inv remote info Hpid rest st1 st2 hInv1 h
      refine ⟨hInv2, fun id => ?_⟩
      rw [hseen2 id, hseen1 id, seenIdsItems_cons]
      cases hs : skips info it
      all_goals simp
      all_goals tauto

theorem processAuthors_inv (remote : Remote)
    (Hpid : ∀ id r, remote.paperDetails id = .ok r → r.paperId = id) :
    ∀ (roster : List (String × AuthorInfo)) (st st2 : SyncState),
      Inv st → processAuthors remote st roster = .ok st2 →
      Inv st2
      ∧ (∀ id, id ∈ st2.seen ↔ id ∈ st.seen ∨ id ∈ seenIdsRoster remote roster)
      ∧ (∀ a ∈ roster, ∃ items, remote.authorPapers a.2.s2id = .ok items)
  | [], st, st2, hInv, h => by
    have h2 := Except.ok.inj h
    subst h2
    refine ⟨hInv, fun id => by simp [seenIdsRoster], by simp⟩
  | a :: rest, st, st2, hInv, h => by
    rw [show processAuthors remote st (a :: rest) =
        (match remote.authorPapers a.2.s2id with
         | .error msg => .error (.upstream msg)
         | .ok items =>
           match processItems remote a.2
               { st with events := st.events ++ [.authorFetch a.2.s2id] } items with
           | .error e => .error e
           | .ok stIt =>
             processAuthors remote
               { stIt with events := stIt.events ++
                   [.checkpoint (stIt.cache.map fun p => p.2)] } rest) from rfl] at h
    rcases ha : remote.authorPapers a.2.s2id with msg | items
    · simp only [ha] at h
      cases h
    · simp only [ha] at h
      rcases hi : processItems remote a.2
          { st with events := st.events ++ [.authorFetch a.2.s2id] } items with e | stIt
      · simp only [hi] at h
        cases h
      · simp only [hi] at h
        have hInvE : Inv { st with events := st.events ++ [.authorFetch a.2.s2id] } := hInv
        obtain ⟨hInv1, hseen1⟩ := processItems_inv remote a.2 Hpid items _ stIt hInvE hi
        have hInvC : Inv { stIt with events := stIt.events ++
            [.checkpoint (stIt.cache.map fun p => p.2)] } := hInv1
        obtain ⟨hInv2, hseen2, hok2⟩ := processAuthors_inv remote Hpid rest _ st2 hInvC h
        refine ⟨hInv2, fun id => ?_, ?_⟩
        · rw [hseen2 id]
          show id ∈ stIt.seen ∨ _ ↔ _
          rw [hseen1 id, seenIdsRoster_cons, List.mem_append]
          show (id ∈ st.seen ∨ _) ∨ _ ↔ _
          rw [show seenIdsAuthor remote a = seenIdsItems a.2 items from by
            unfold seenIdsAuthor
            rw [ha]]
          constructor
          · rintro ((h3 | h3) | h3)
            · exact Or.inl h3
            · exact Or.inr (Or.inl h3)
            · exact Or.inr (Or.inr h3)
          · rintro (h3 | (h3 | h3))
            · exact Or.inl (Or.inl h3)
            · exact Or.inl (Or.inr h3)
            · exact Or.inr h3
        · intro b hb
          rcases List.mem_cons.mp hb with he | hr
          · subst he
            exact ⟨items, ha⟩
          · exact hok2 b hr

theorem mem_keys_upsert (c : List (String × PaperRecord)) (k : String) (v : PaperRecord)
    (i : String) : i ∈ keys (upsert c k v) ↔ i ∈ keys c ∨ i = k := by
  induction c with
  | nil => simp [upsert, keys]
  | cons p t ih =>
    obtain ⟨k1, v1⟩ := p
    by_cases hk : k1 = k
    · rw [show upsert ((k1, v1) :: t) k v = (k, v) :: t from by simp [upsert, hk]]
      subst hk
      simp [keys]
      tauto
    · rw [show upsert ((k1, v1) :: t) k v = (k1, v1) :: upsert t k v from by
        simp only [upsert]
        rw [if_neg hk]]
      simp [keys] at ih ⊢
      rw [ih]
      tauto

theorem upsert_nodup (c : List (String × PaperRecord)) (k : String) (v : PaperRecord)
    (h : (keys c).Nodup) : (keys (upsert c k v)).Nodup := by
  induction c with
  | nil => simp [upsert, keys]
  | cons p t ih =>
    obtain ⟨k1, v1⟩ := p
    have hcons : (k1 :: keys t).Nodup := by
      rw [show keys ((k1, v1) :: t) = k1 :: keys t from rfl] at h
      exact h
    have h1 : k1 ∉ keys t := (List.nodup_cons.mp hcons).1
    have h2 : (keys t).Nodup := (List.nodup_cons.mp hcons).2
    by_cases hk : k1 = k
    · rw [show upsert ((k1, v1) :: t) k v = (k, v) :: t from by simp [upsert, hk]]
      rw [show keys ((k, v) :: t) = k :: keys t from rfl]
      exact List.nodup_cons.mpr ⟨by rw [← hk]; exact h1, h2⟩
    · rw [show upsert ((k1, v1) :: t) k v = (k1, v1) :: upsert t k v from by
        simp only [upsert]
        rw [if_neg hk]]
      rw [show keys ((k1, v1) :: upsert t k v) = k1 :: keys (upsert t k v) from rfl]
      refine List.nodup_cons.mpr ⟨?_, ih h2⟩
      rw [mem_keys_upsert]
      rintro (h3 | h3)
      · exact h1 h3
      · exact hk h3

theorem upsert_pid (c : List (String × PaperRecord)) (k : String) (v : PaperRecord)
    (h : ∀ p ∈ c, p.2.paperId = p.1) (hv : v.paperId = k) :
    ∀ p ∈ upsert c k v, p.2.paperId = p.1 := by
  induction c with
  | nil =>
    intro p hp
    rw [show upsert [] k v = [(k, v)] from rfl] at hp
    rw [List.mem_singleton] at hp
    subst hp
    exact hv
  | cons q t ih =>
    obtain ⟨k1, v1⟩ := q
    intro p hp
    by_cases hk : k1 = k
    · rw [show upsert ((k1, v1) :: t) k v = (k, v) :: t from by simp [upsert, hk]] at hp
      rcases List.mem_cons.mp hp with he | ht
      · subst he; exact hv
      · exact h p (List.mem_cons_of_mem _ ht)
    · rw [show upsert ((k1, v1) :: t) k v = (k1, v1) :: upsert t k v from by
        simp only [upsert]
        rw [if_neg hk]] at hp
      rcases List.mem_cons.mp hp with he | ht
      · subst he; exact h (k1, v1) (List.mem_cons_self _ _)
      · exact ih (fun q hq => h q (List.mem_cons_of_mem _ hq)) p ht

theorem loadCache_wf_aux :
    ∀ (file : List PaperRecord) (acc : List (String × PaperRecord)),
      (keys acc).Nodup → (∀ p ∈ acc, p.2.paperId = p.1) →
      (keys (file.foldl (fun a r => upsert a r.paperId r) acc)).Nodup ∧
      (∀ p ∈ file.foldl (fun a r => upsert a r.paperId r) acc, p.2.paperId = p.1)
  | [], acc, hnd, hpid => ⟨hnd, hpid⟩
  | r :: t, acc, hnd, hpid => by
    simp only [List.foldl_cons]
    exact loadCache_wf_aux t (upsert acc r.paperId r)
      (upsert_nodup acc r.paperId r hnd)
      (upsert_pid acc r.paperId r hpid rfl)

theorem loadCache_wf (file : List PaperRecord) :
    (keys (loadCache file)).Nodup ∧ (∀ p ∈ loadCache file, p.2.paperId = p.1) :=
  loadCache_wf_aux file [] (by simp [keys]) (by simp)

theorem initState_inv (file : List PaperRecord) : Inv (initState file) := by
  obtain ⟨h1, h2⟩ := loadCache_wf file
  exact ⟨h1, h2, by simp [initState]⟩

/-! ## A second run reuses everything -/

theorem processItems_noop (remote : Remote) (info : AuthorInfo)
    (c : List (String × PaperRecord)) :
    ∀ (items : List PaperItem),
      (∀ it ∈ items, skips info it = false →
        ∃ r, lookupId c it.paperId = some r ∧ r.bibtex.isSome) →
      ∀ (seen : List String) (evs : List Event),
        ∃ seen2, processItems remote info ⟨c, seen, evs⟩ items = .ok ⟨c, seen2, evs⟩
  | [], _, seen, evs => ⟨seen, rfl⟩
  | it :: rest, hall, seen, evs => by
    have hallr : ∀ i ∈ rest, skips info i = false →
        ∃ r, lookupId c i.paperId = some r ∧ r.bibtex.isSome :=
      fun i hi => hall i (List.mem_cons_of_mem _ hi)
    cases hs : skips info it with
    | true =>
      obtain ⟨seen2, h2⟩ := processItems_noop remote info c rest hallr seen evs
      refine ⟨seen2, ?_⟩
      rw [show processItems remote info ⟨c, seen, evs⟩ (it :: rest) =
          (match processItem remote info ⟨c, seen, evs⟩ it with
           | .error e => .error e
           | .ok st1 => processItems remote info st1 rest) from rfl]
      rw [show processItem remote info ⟨c, seen, evs⟩ it = .ok ⟨c, seen, evs⟩ from by
        unfold processItem
        rw [hs]
        simp]
      exact h2
    | false =>
      obtain ⟨r, hr, hrb⟩ := hall it (List.mem_cons_self _ _) hs
      obtain ⟨b, hb⟩ := Option.isSome_iff_exists.mp hrb
      obtain ⟨seen2, h2⟩ :=
        processItems_noop remote info c rest hallr (markSeen it.paperId seen) evs
      refine ⟨seen2, ?_⟩
      rw [show processItems remote info ⟨c, seen, evs⟩ (it :: rest) =
          (match processItem remote info ⟨c, seen, evs⟩ it with
           | .error e => .error e
           | .ok st1 => processItems remote info st1 rest) from rfl]
      rw [show processItem remote info ⟨c, seen, evs⟩ it =
          .ok ⟨c, markSeen it.paperId seen, evs⟩ from by
        unfold processItem
        rw [hs]
        simp only [Bool.false_eq_true, if_false]
        show (match lookupId c it.paperId with
          | some r =>
            ensureBibtex remote.anthology
              ⟨c, markSeen it.paperId seen, evs⟩ it.paperId r
          | none =>
            match remote.paperDetails it.paperId with
            | Except.error msg => Except.error (Err.upstream msg)
            | Except.ok r =>
              ensureBibtex remote.anthology
                ⟨c ++ [(it.paperId, r)], markSeen it.paperId seen,
                  evs ++ [Event.paperFetch it.paperId]⟩ it.paperId r) =
          (Except.ok (⟨c, markSeen it.paperId seen, evs⟩ : SyncState) : Except Err SyncState)
        rw [hr]
        show ensureBibtex remote.anthology ⟨c, markSeen it.paperId seen, evs⟩ it.paperId r = _
        unfold ensureBibtex
        rw [hb]]
      exact h2

theorem processAuthors_noop (remote : Remote) (c : List (String × PaperRecord)) :
    ∀ (roster : List (String × AuthorInfo)),
      (∀ a ∈ roster, ∃ items, remote.authorPapers a.2.s2id = .ok items) →
      (∀ id ∈ seenIdsRoster remote roster,
        ∃ r, lookupId c id = some r ∧ r.bibtex.isSome) →
      ∀ (seen : List String) (evs : List Event), ∃ seen2 evs2,
        processAuthors remote ⟨c, seen, evs⟩ roster = .ok ⟨c, seen2, evs2⟩
  | [], _, _, seen, evs => ⟨seen, evs, rfl⟩
  | a :: rest, hsucc, hall, seen, evs => by
    obtain ⟨items, ha⟩ := hsucc a (List.mem_cons_self _ _)
    have hallRest : ∀ id ∈ seenIdsRoster remote rest,
        ∃ r, lookupId c id = some r ∧ r.bibtex.isSome := by
      intro id hid
      refine hall id ?_
      rw [seenIdsRoster_cons, List.mem_append]
      exact Or.inr hid
    have hallItems : ∀ it ∈ items, skips a.2 it = false →
        ∃ r, lookupId c it.paperId = some r ∧ r.bibtex.isSome := by
      intro it hit hsk
      refine hall it.paperId ?_
      rw [seenIdsRoster_cons, List.mem_append]
      refine Or.inl ?_
      rw [show seenIdsAuthor remote a = seenIdsItems a.2 items from by
        unfold seenIdsAuthor
        rw [ha]]
      unfold seenIdsItems
      refine List.mem_map.mpr ⟨it, ?_, rfl⟩
      rw [List.mem_filter]
      exact ⟨hit, by simp [hsk]⟩
    obtain ⟨seenI, hI⟩ := processItems_noop remote a.2 c items hallItems seen
      (evs ++ [.authorFetch a.2.s2id])
    obtain ⟨seen2, evs2, h2⟩ := processAuthors_noop remote c rest
      (fun b hb => hsucc b (List.mem_cons_of_mem _ hb)) hallRest seenI
      ((evs ++ [.authorFetch a.2.s2id]) ++ [.checkpoint (c.map fun p => p.2)])
    refine ⟨seen2, evs2, ?_⟩
    rw [show processAuthors remote ⟨c, seen, evs⟩ (a :: rest) =
        (match remote.authorPapers a.2.s2id with
         | .error msg => .error (.upstream msg)
         | .ok items =>
           match processItems remote a.2
               ⟨c, seen, evs ++ [.authorFetch a.2.s2id]⟩ items with
           | .error e => .error e
           | .ok stIt =>
             processAuthors remote
               { stIt with events := stIt.events ++
                   [.checkpoint (stIt.cache.map fun p => p.2)] } rest) from rfl]
    rw [ha]
    show (match processItems remote a.2 ⟨c, seen, evs ++ [Event.authorFetch a.2.s2id]⟩ items with
      | Except.error e => Except.error e
      | Except.ok stIt =>
        processAuthors remote
          { stIt with events := stIt.events ++
              [Event.checkpoint (stIt.cache.map fun p => p.2)] } rest) =
      (Except.ok (⟨c, seen2, evs2⟩ : SyncState) : Except Err SyncState)
    rw [hI]
    exact h2

/-- C4: a successful run leaves a store with no duplicate identifiers, and
a second run against the same roster and an unchanged remote (the same
oracle functions; paper details are assumed consistent, carrying the
queried id as their paperId, as the real endpoint does) reproduces the
store byte for byte: the second run succeeds and its final cache — hence
the written file, which is its ordered value list — equals the first
run's. -/
theorem sync_idempotent (remote : Remote) (roster : List (String × AuthorInfo))
    (file : List PaperRecord) (st1 : SyncState)
    (Hpid : ∀ id r, remote.paperDetails id = .ok r → r.paperId = id)
    (H1 : update_cache remote roster file = .ok st1) :
    (keys st1.cache).Nodup ∧
    ∃ st2, update_cache remote roster (st1.cache.map fun p => p.2) = .ok st2
      ∧ st2.cache = st1.cache
      ∧ st2.cache.map (fun p => p.2) = st1.cache.map (fun p => p.2) := by
  unfold update_cache at H1
  rcases hp : processAuthors remote (initState file) roster with e | stp
  · rw [hp] at H1
    cases H1
  · rw [hp] at H1
    have h1 := Except.ok.inj H1
    obtain ⟨hInvP, hseenP, hokP⟩ := processAuthors_inv remote Hpid roster
      (initState file) stp (initState_inv file) hp
    obtain ⟨hndP, hpidP, hbibP⟩ := hInvP
    have hc1 : st1.cache = stp.cache.filter fun p => decide (p.1 ∈ stp.seen) := by
      rw [← h1]
    have hs1 : st1.seen = stp.seen := by
      rw [← h1]
    -- facts about the first run's final store
    have hnd1 : (keys st1.cache).Nodup := by
      rw [hc1]
      exact List.Nodup.sublist (List.Sublist.map _ (List.filter_sublist _)) hndP
    have hpid1 : ∀ p ∈ st1.cache, p.2.paperId = p.1 := by
      intro p hp2
      rw [hc1] at hp2
      exact hpidP p (List.mem_filter.mp hp2).1
    have hmemseen1 : ∀ p ∈ st1.cache, p.1 ∈ stp.seen := by
      intro p hp2
      rw [hc1] at hp2
      have := (List.mem_filter.mp hp2).2
      simpa using this
    have hlook1 : ∀ id ∈ stp.seen,
        ∃ r, lookupId st1.cache id = some r ∧ r.bibtex.isSome := by
      intro id hid
      obtain ⟨r, hr, hrb⟩ := hbibP id hid
      refine ⟨r, ?_, hrb⟩
      rw [hc1, lookupId_filter_seen, if_pos hid]
      exact hr
    -- the seen set of any run is seenIdsRoster
    have hseen0 : ∀ id, id ∈ stp.seen ↔ id ∈ seenIdsRoster remote roster := by
      intro id
      rw [hseenP id]
      simp [initState]
    -- the second run reloads exactly the first run's store
    have hround : loadCache (st1.cache.map fun p => p.2) = st1.cache :=
      loadCache_roundtrip st1.cache hpid1 hnd1
    have hall2 : ∀ id ∈ seenIdsRoster remote roster,
        ∃ r, lookupId st1.cache id = some r ∧ r.bibtex.isSome := by
      intro id hid
      exact hlook1 id ((hseen0 id).mpr hid)
    obtain ⟨seen2, evs2, hrun2⟩ :=
      processAuthors_noop remote st1.cache roster hokP hall2 [] []
    have hInv2start : Inv (⟨st1.cache, [], []⟩ : SyncState) := ⟨hnd1, hpid1, by simp⟩
    obtain ⟨_, hseen2char, _⟩ := processAuthors_inv remote Hpid roster
      ⟨st1.cache, [], []⟩ ⟨st1.cache, seen2, evs2⟩ hInv2start hrun2
    have hfilter2 : (st1.cache.filter fun p => decide (p.1 ∈ seen2)) = st1.cache := by
      rw [List.filter_eq_self]
      intro p hp2
      have h3 : p.1 ∈ seenIdsRoster remote roster := (hseen0 p.1).mp (hmemseen1 p hp2)
      have h4 : p.1 ∈ seen2 := by
        rw [hseen2char p.1]
        simp [h3]
      simp [h4]
    refine ⟨hnd1, ⟨st1.cache, seen2, evs2 ++
        [.checkpoint ((st1.cache.filter fun p => decide (p.1 ∈ seen2)).map fun p => p.2)]⟩,
      ?_, by rw [hfilter2], by rw [hfilter2]⟩
    unfold update_cache
    rw [show initState (st1.cache.map fun p => p.2) =
        (⟨st1.cache, [], []⟩ : SyncState) from by
      unfold initState
      rw [hround]]
    rw [hrun2]
    show Except.ok (⟨st1.cache.filter fun p => decide (p.1 ∈ seen2), seen2, _⟩ : SyncState) = _
    rw [hfilter2]

/-- C4 witness: a concrete roster and remote whose first run from an empty
file succeeds; the theorem applied there yields the second run's store
equal to the first. -/
theorem sync_idempotent_witness :
    (keys stW.cache).Nodup ∧
    ∃ st2, update_cache remoteW rosterW (stW.cache.map fun p => p.2) = .ok st2
      ∧ st2.cache = stW.cache
      ∧ st2.cache.map (fun p => p.2) = stW.cache.map (fun p => p.2) :=
  sync_idempotent remoteW rosterW [] stW
    (fun id r h => by
      have h2 := Except.ok.inj h
      rw [← h2]
      rfl)
    (by rfl)

end ClspPubs
